import Mathlib

/-!
Shallow embedding of the chess-counting-trainer glue scripts
(src/scripts/randompuzzle.js and src/scripts/randomgame.js).

The scripts delegate all chess rules to an external rules engine
(construct-from-FEN, move application, FEN serialization, turn query,
legal-move listing, game-over query, board grid) and all rendering to a
board widget.  The engine is modelled here as a structure of pure
functions over an abstract position type; the board widget's only
observable effect used by the scripts is the last position string pushed
via board.position, which we record in the state.  The glue code itself
(cursor bookkeeping, replay loops, error handling) is translated
statement by statement, including the JavaScript control flow on a
thrown exception (statements after the throwing call do not execute)
and on a null return from move (execution continues).
-/

namespace ChessTrainer

/-- Outcome of one call to the rules engine's move function (spec section 6:
"applies a move, returns move details or a failure sentinel"): the move is
applied and the updated position returned, or the failure sentinel null is
returned with the position unchanged, or an exception is thrown with the
position unchanged. -/
inductive MoveResult (Pos : Type) where
  | ok (p : Pos)
  | nullRet
  | thrown
deriving DecidableEq

/-- One square of the engine's board() grid: a piece descriptor with a
lower-case type character and a color character ('w' or 'b'). -/
structure Piece where
  type : Char
  color : Char
deriving DecidableEq

/-- The external rules engine interface consumed by the scripts (spec
section 6).  `init` is construction from a FEN string, none meaning the
constructor throws.  `moveSloppy` is game.move(str, sloppy true),
`moveFromTo` is game.move of a from/to/promotion descriptor, `moveSan` is
game.move(str) on a string taken from the engine's own legal-move list. -/
structure Engine (Pos : Type) where
  init : String → Option Pos
  fen : Pos → String
  moveSloppy : Pos → String → MoveResult Pos
  moveFromTo : Pos → String → String → MoveResult Pos
  moveSan : Pos → String → MoveResult Pos
  boardOf : Pos → List (List (Option Piece))
  turn : Pos → Char
  moves : Pos → List String
  isGameOver : Pos → Bool

/-- MATERIAL_VALUES lookup table (randompuzzle.js lines 50-57).  The
source's object lookup is only ever applied to the six engine piece-type
characters; other characters are mapped to 0 here to keep the function
total. -/
def MATERIAL_VALUES : Char → Nat
  | 'p' => 1
  | 'n' => 3
  | 'b' => 3
  | 'r' => 5
  | 'q' => 9
  | 'k' => 0
  | _ => 0

/-- The double loop of calculateMaterial (randompuzzle.js lines 73-93):
scan every cell of the board grid and add each piece's MATERIAL_VALUES
entry to its color's running total (white first component, black second). -/
def materialOfBoard (b : List (List (Option Piece))) : Nat × Nat :=
  b.foldl
    (fun acc row =>
      row.foldl
        (fun acc2 cell =>
          match cell with
          | none => acc2
          | some piece =>
            let value := MATERIAL_VALUES piece.type
            if piece.color = 'w' then (acc2.1 + value, acc2.2)
            else (acc2.1, acc2.2 + value))
        acc)
    (0, 0)

/-- Split a character list at every occurrence of a separator character,
keeping empty segments, exactly as the JavaScript String.split of a
single-character separator does (splitting the empty string yields one
empty segment). -/
def splitOnChar (sep : Char) : List Char → List (List Char)
  | [] => [[]]
  | c :: rest =>
    let r := splitOnChar sep rest
    if c = sep then [] :: r else (c :: r.headD []) :: r.tail

/-- JavaScript moves.split(' ') as used by the scripts. -/
def splitSpaces (s : String) : List String :=
  (splitOnChar ' ' s.data).map String.mk

/-- Modelled from the spec: expansion of one rank of a FEN piece-placement
field into board() cells, as the external rules engine does (spec section 6
board(), glossary "FEN"): a digit stands for that many empty squares, a
letter for a piece whose color is given by its case and whose type is its
lower-case form. -/
def expandRow : List Char → List (Option Piece)
  | [] => []
  | c :: rest =>
    if c.isDigit then List.replicate (c.toNat - '0'.toNat) none ++ expandRow rest
    else some ⟨c.toLower, if c.isUpper then 'w' else 'b'⟩ :: expandRow rest

/-- Modelled from the spec: the external rules engine's board() grid for a
FEN string (spec section 6) — the piece-placement field (before the first
space) split into ranks at '/' and each rank expanded. -/
def fenBoard (fen : String) : List (List (Option Piece)) :=
  (splitOnChar '/' ((splitOnChar ' ' fen.data).headD [])).map expandRow

/-- calculateMaterial (randompuzzle.js lines 68-98) with the engine's
construction and board() instantiated by the spec-modelled FEN reading
fenBoard; the catch branch returning zero material corresponds to a
construction failure, which does not arise for the well-formed positions
this function is applied to in the claims below. -/
def calculateMaterial (fen : String) : Nat × Nat :=
  materialOfBoard (fenBoard fen)

/-- calculateMaterial (randompuzzle.js lines 68-98) over an abstract
engine: construct a fresh rules object from the FEN and scan its board()
grid; if construction throws, the catch returns zero material for both
sides. -/
def calculateMaterialE (E : Engine Pos) (fen : String) : Nat × Nat :=
  match E.init fen with
  | none => (0, 0)
  | some g => materialOfBoard (E.boardOf g)

/-- The move loop of playMovesAndCalculateMaterial (randompuzzle.js lines
112-121): each token that is truthy and at least 4 characters long is
applied with sloppy parsing inside a try/catch whose catch breaks out of
the loop; a null return and a skipped token both just continue. -/
def playLoop (E : Engine Pos) (g : Pos) : List String → Pos
  | [] => g
  | m :: rest =>
    if m ≠ "" ∧ 4 ≤ m.length then
      match E.moveSloppy g m with
      | .ok g2 => playLoop E g2 rest
      | .nullRet => playLoop E g rest
      | .thrown => g
    else playLoop E g rest

/-- playMovesAndCalculateMaterial (randompuzzle.js lines 106-129):
construct from the starting FEN (outer catch returns zero material if that
throws), split the moves string at spaces, run the move loop, and return
the material of the reached position. -/
def playMovesAndCalculateMaterial (E : Engine Pos) (startFen movesStr : String) :
    Nat × Nat :=
  match E.init startFen with
  | none => (0, 0)
  | some g => calculateMaterialE E (E.fen (playLoop E g (splitSpaces movesStr)))

/-- The mutable globals of randompuzzle.js used by navigation: the rules
object game, the cursor currentMoveIndex (-1 means the starting position),
the split move list puzzleMoves, the original FEN, and the last position
string pushed to board.position. -/
structure PuzzleState (Pos : Type) where
  game : Pos
  currentMoveIndex : Int
  puzzleMoves : List String
  originalFen : String
  boardPos : String
deriving DecidableEq

/-- goToStart (randompuzzle.js lines 406-411): cursor to -1, fresh rules
object from the original FEN, push the original FEN.  If construction
throws, the cursor assignment has already happened and the remaining
statements do not run. -/
def goToStart (E : Engine Pos) (s : PuzzleState Pos) : PuzzleState Pos :=
  match E.init s.originalFen with
  | none => { s with currentMoveIndex := -1 }
  | some g0 => { s with currentMoveIndex := -1, game := g0, boardPos := s.originalFen }

/-- The replay loop shared by previousMove and goToEnd (randompuzzle.js
lines 424-426 and 451-453): apply each listed move to the rules object
with sloppy parsing; a null return leaves the object unchanged and the
loop continues; a thrown exception aborts the whole loop (second component
true). -/
def replayFrom (E : Engine Pos) (g : Pos) : List String → Pos × Bool
  | [] => (g, false)
  | m :: rest =>
    match E.moveSloppy g m with
    | .ok g2 => replayFrom E g2 rest
    | .nullRet => replayFrom E g rest
    | .thrown => (g, true)

/-- previousMove (randompuzzle.js lines 416-431): only acts when the
cursor exceeds -1; after decrementing, landing on -1 delegates to
goToStart, otherwise a fresh rules object replays moves 0..cursor and the
resulting FEN is pushed — unless construction or a replay move throws, in
which case the statements after the throw (including the push) do not run. -/
def previousMove (E : Engine Pos) (s : PuzzleState Pos) : PuzzleState Pos :=
  if -1 < s.currentMoveIndex then
    let i := s.currentMoveIndex - 1
    if i = -1 then goToStart E { s with currentMoveIndex := i }
    else
      match E.init s.originalFen with
      | none => { s with currentMoveIndex := i }
      | some g0 =>
        match replayFrom E g0 (s.puzzleMoves.take (i + 1).toNat) with
        | (g, true) => { s with currentMoveIndex := i, game := g }
        | (g, false) => { s with currentMoveIndex := i, game := g, boardPos := E.fen g }
  else s

/-- nextMove (randompuzzle.js lines 436-443): only acts when the cursor is
below length - 1; increments the cursor, applies the move at the new index
to the current rules object with sloppy parsing, and pushes the resulting
FEN; a null return still pushes the (unchanged) FEN, a thrown exception
leaves the push unexecuted. -/
def nextMove (E : Engine Pos) (s : PuzzleState Pos) : PuzzleState Pos :=
  if s.currentMoveIndex < (s.puzzleMoves.length : Int) - 1 then
    let i := s.currentMoveIndex + 1
    match E.moveSloppy s.game (s.puzzleMoves.getD i.toNat "") with
    | .ok g => { s with currentMoveIndex := i, game := g, boardPos := E.fen g }
    | .nullRet => { s with currentMoveIndex := i, boardPos := E.fen s.game }
    | .thrown => { s with currentMoveIndex := i }
  else s

/-- goToEnd (randompuzzle.js lines 448-456): cursor to length - 1, fresh
rules object from the original FEN, replay every move, push the resulting
FEN; throws abort the remaining statements as in previousMove. -/
def goToEnd (E : Engine Pos) (s : PuzzleState Pos) : PuzzleState Pos :=
  let i : Int := (s.puzzleMoves.length : Int) - 1
  match E.init s.originalFen with
  | none => { s with currentMoveIndex := i }
  | some g0 =>
    match replayFrom E g0 (s.puzzleMoves.take (i + 1).toNat) with
    | (g, true) => { s with currentMoveIndex := i, game := g }
    | (g, false) => { s with currentMoveIndex := i, game := g, boardPos := E.fen g }

/-- config.onDrop (randompuzzle.js lines 20-43): attempt the dragged move
as a from/to descriptor with queen promotion on the current rules object.
A legal move mutates the rules object; an illegal move (null) or a thrown
exception (caught) changes nothing.  Every branch returns 'snapback', so
the displayed position is never changed by a drag. -/
def onDrop (E : Engine Pos) (s : PuzzleState Pos) (source target : String) :
    PuzzleState Pos :=
  match E.moveFromTo s.game source target with
  | .ok g => { s with game := g }
  | .nullRet => s
  | .thrown => s

/-- The puzzle-loading steps of fetchRandomPuzzle (randompuzzle.js lines
212-236) that set up the navigation state: store the original FEN, reset
the cursor to -1, construct the rules object from the FEN, split the moves
string at spaces, and push the starting FEN to the board.  A construction
failure propagates to the outer catch (fallback display), modelled as
none. -/
def loadPuzzle (E : Engine Pos) (F movesStr : String) : Option (PuzzleState Pos) :=
  match E.init F with
  | none => none
  | some g =>
    some { game := g, currentMoveIndex := -1, puzzleMoves := splitSpaces movesStr,
           originalFen := F, boardPos := F }

/-- The delayed setup-move callback of fetchRandomPuzzle (randompuzzle.js
lines 239-254): if a first move exists and is truthy, apply it with sloppy
parsing; on a normal return (move applied, or null returned) the game's
FEN is pushed and the cursor set to 0; a thrown exception is caught and
the cursor set to -1. -/
def applySetupMove (E : Engine Pos) (s : PuzzleState Pos) : PuzzleState Pos :=
  if 0 < s.puzzleMoves.length ∧ s.puzzleMoves.getD 0 "" ≠ "" then
    match E.moveSloppy s.game (s.puzzleMoves.getD 0 "") with
    | .ok g => { s with game := g, boardPos := E.fen g, currentMoveIndex := 0 }
    | .nullRet => { s with boardPos := E.fen s.game, currentMoveIndex := 0 }
    | .thrown => { s with currentMoveIndex := -1 }
  else s

/-- The orientation choice at puzzle load (randompuzzle.js lines 222-230):
if the constructed position has black to move first the board is oriented
white (white pieces at the bottom), otherwise black. -/
def loadOrientation (E : Engine Pos) (g : Pos) : String :=
  if E.turn g = 'b' then "white" else "black"

/-- The display name of the side denoted by an engine turn character. -/
def sideName (c : Char) : String :=
  if c = 'w' then "white" else "black"

/-- A user-visible operation on the loaded puzzle: one of the four
navigation buttons, or a drag-drop of a piece from a source square to a
target square. -/
inductive PuzzleOp where
  | start
  | prev
  | next
  | last
  | drag (source target : String)
deriving DecidableEq

/-- Whether an operation is one of the four navigation buttons. -/
def PuzzleOp.isNav : PuzzleOp → Bool
  | .start => true
  | .prev => true
  | .next => true
  | .last => true
  | .drag _ _ => false

/-- Dispatch one user operation to its handler. -/
def applyOp (E : Engine Pos) (s : PuzzleState Pos) : PuzzleOp → PuzzleState Pos
  | .start => goToStart E s
  | .prev => previousMove E s
  | .next => nextMove E s
  | .last => goToEnd E s
  | .drag src tgt => onDrop E s src tgt

/-- Run a sequence of user operations in order. -/
def applyOps (E : Engine Pos) (s : PuzzleState Pos) (ops : List PuzzleOp) :
    PuzzleState Pos :=
  ops.foldl (applyOp E) s

/-- Replay that demands every move application succeed (the engine returns
the move details each time): some of the reached position, or none as soon
as a move returns null or throws. -/
def cleanReplay (E : Engine Pos) (g : Pos) : List String → Option Pos
  | [] => some g
  | m :: rest =>
    match E.moveSloppy g m with
    | .ok g2 => cleanReplay E g2 rest
    | .nullRet => none
    | .thrown => none

/-- The position denoted by cursor value c: the result of cleanly replaying
moves 0..c from the freshly constructed starting position (c = -1 gives the
starting position itself; the default is only reached when the replay is
not clean). -/
def prefixPos (E : Engine Pos) (g0 : Pos) (ms : List String) (c : Int) : Pos :=
  (cleanReplay E g0 (ms.take (c + 1).toNat)).getD g0

/-- A well-behaved loaded puzzle: the engine constructs a position from the
original FEN, serializes it back to the same string, and every recorded
move applies successfully in sequence from it. -/
def GoodPuzzle (E : Engine Pos) (F movesStr : String) (g0 : Pos) : Prop :=
  E.init F = some g0 ∧ E.fen g0 = F ∧
    (cleanReplay E g0 (splitSpaces movesStr)).isSome = true

/-- The navigation invariant: the state still refers to the loaded puzzle,
the cursor is in range, the rules object holds exactly the clean replay of
moves 0..cursor, and the displayed position is that replay's FEN. -/
def NavInv (E : Engine Pos) (g0 : Pos) (F : String) (ms : List String)
    (s : PuzzleState Pos) : Prop :=
  s.originalFen = F ∧ s.puzzleMoves = ms ∧
  -1 ≤ s.currentMoveIndex ∧ s.currentMoveIndex ≤ (ms.length : Int) - 1 ∧
  s.game = prefixPos E g0 ms s.currentMoveIndex ∧
  s.boardPos = E.fen (prefixPos E g0 ms s.currentMoveIndex)

/-- The mutable state of randomgame.js: the rules object, the last position
pushed to the display, and how many further invocations the current
invocation scheduled (via setTimeout). -/
structure RGState (Pos : Type) where
  game : Pos
  boardPos : String
  scheduled : Nat
deriving DecidableEq

/-- makeRandomMove (randomgame.js lines 8-18) with the sample of
Math.random() passed in as r: fetch the legal-move list; if the game is
over, return without scheduling; otherwise apply the move at index
floor(r * length), push the resulting FEN, and schedule one further
invocation.  An exception from the move call would skip the push and the
scheduling. -/
def makeRandomMove (E : Engine Pos) (r : ℚ) (s : RGState Pos) : RGState Pos :=
  let possibleMoves := E.moves s.game
  if E.isGameOver s.game then { s with scheduled := 0 }
  else
    let randomIdx := (⌊r * (possibleMoves.length : ℚ)⌋).toNat
    match E.moveSan s.game (possibleMoves.getD randomIdx "") with
    | .ok g => { game := g, boardPos := E.fen g, scheduled := 1 }
    | .nullRet => { game := s.game, boardPos := E.fen s.game, scheduled := 1 }
    | .thrown => { s with scheduled := 0 }

/-- Modelled from the spec: a rules-engine instance whose positions are the
history of applied move strings on top of the constructing FEN, in which
every submitted move is accepted and returns move details (spec section 6;
realizable whenever every submitted move is legal in the position it is
tried in).  The turn character and game-over flag are fixed parameters;
the legal-move list is a fixed two-element list. -/
def histEngine (t : Char) (over : Bool) : Engine (List String) where
  init f := some [f]
  fen p := " ".intercalate p.reverse
  moveSloppy p m := .ok (m :: p)
  moveFromTo p src tgt := .ok ((src ++ tgt) :: p)
  moveSan p m := .ok (m :: p)
  boardOf _ := []
  turn _ := t
  moves _ := ["e4", "d4"]
  isGameOver _ := over

/-- Modelled from the spec: a rules-engine instance in which every sloppy
move submission is rejected with the failure sentinel null and the
position unchanged (spec sections 6 and 7: an unparseable or illegal move
string), all other behavior as in histEngine. -/
def nullMoveEngine : Engine (List String) :=
  { histEngine 'w' false with moveSloppy := fun _ _ => .nullRet }

/-- Modelled from the spec: a rules-engine instance in which construction
from the FEN string "bad" throws (spec section 7: construct failure caught
to zero material), the move string "boom" throws when applied, and every
other move is accepted. -/
def flakyEngine : Engine (List String) :=
  { histEngine 'w' false with
      init := fun f => if f = "bad" then none else some [f],
      moveSloppy := fun p m => if m = "boom" then .thrown else .ok (m :: p) }

/-! ### Replay lemmas -/

theorem cleanReplay_append (E : Engine Pos) (g : Pos) (xs ys : List String) :
    cleanReplay E g (xs ++ ys) = (cleanReplay E g xs).bind fun g2 => cleanReplay E g2 ys := by
  induction xs generalizing g with
  | nil => simp [cleanReplay]
  | cons m rest ih =>
    simp only [List.cons_append, cleanReplay]
    cases E.moveSloppy g m with
    | ok g2 => exact ih g2
    | nullRet => simp
    | thrown => simp

theorem replayFrom_of_cleanReplay (E : Engine Pos) (g g2 : Pos) (ms : List String)
    (h : cleanReplay E g ms = some g2) : replayFrom E g ms = (g2, false) := by
  induction ms generalizing g with
  | nil => simp [cleanReplay] at h; simp [replayFrom, h]
  | cons m rest ih =>
    simp only [cleanReplay] at h
    simp only [replayFrom]
    cases hm : E.moveSloppy g m <;> rw [hm] at h
    · exact ih _ h
    · exact absurd h (by simp)
    · exact absurd h (by simp)

theorem cleanReplay_take_isSome (E : Engine Pos) (g : Pos) (ms : List String) (k : Nat)
    (h : (cleanReplay E g ms).isSome = true) :
    (cleanReplay E g (ms.take k)).isSome = true := by
  have hsplit := cleanReplay_append E g (ms.take k) (ms.drop k)
  rw [List.take_append_drop] at hsplit
  rw [hsplit] at h
  cases hc : cleanReplay E g (ms.take k) <;> rw [hc] at h <;> simp_all

theorem cleanReplay_singleton (E : Engine Pos) (g g2 : Pos) (m : String)
    (h : cleanReplay E g [m] = some g2) : E.moveSloppy g m = .ok g2 := by
  simp only [cleanReplay] at h
  cases hm : E.moveSloppy g m <;> rw [hm] at h <;> simp_all [cleanReplay]

theorem isSome_eq_some_getD (o : Option α) (d : α) (h : o.isSome = true) :
    o = some (o.getD d) := by
  cases o <;> simp_all

/-- The clean replay of the k-element prefix, when the full replay succeeds. -/
theorem cleanReplay_take_eq (E : Engine Pos) (g0 : Pos) (ms : List String) (k : Nat)
    (hR : (cleanReplay E g0 ms).isSome = true) :
    cleanReplay E g0 (ms.take k) = some ((cleanReplay E g0 (ms.take k)).getD g0) :=
  isSome_eq_some_getD _ _ (cleanReplay_take_isSome E g0 ms k hR)

theorem prefixPos_neg_one (E : Engine Pos) (g0 : Pos) (ms : List String) :
    prefixPos E g0 ms (-1) = g0 := by
  have h0 : ((-1 : Int) + 1).toNat = 0 := by decide
  simp [prefixPos, h0, cleanReplay]

/-- prefixPos written through cleanReplay, when the full replay succeeds. -/
theorem cleanReplay_take_prefixPos (E : Engine Pos) (g0 : Pos) (ms : List String)
    (c : Int) (hR : (cleanReplay E g0 ms).isSome = true) :
    cleanReplay E g0 (ms.take (c + 1).toNat) = some (prefixPos E g0 ms c) := by
  rw [prefixPos]
  exact cleanReplay_take_eq E g0 ms _ hR

/-- One clean step: applying the recorded move at index i.toNat to the
position at cursor i - 1 yields the position at cursor i. -/
theorem moveSloppy_prefixPos_step (E : Engine Pos) (g0 : Pos) (ms : List String)
    (i : Int) (h0 : 0 ≤ i) (hub : i ≤ (ms.length : Int) - 1)
    (hR : (cleanReplay E g0 ms).isSome = true) :
    E.moveSloppy (prefixPos E g0 ms (i - 1)) (ms.getD i.toNat "") =
      .ok (prefixPos E g0 ms i) := by
  set k := i.toNat with hk
  have hkl : k < ms.length := by omega
  have htk : (i - 1 + 1).toNat = k := by omega
  have htk1 : (i + 1).toNat = k + 1 := by omega
  have hA := cleanReplay_take_prefixPos E g0 ms (i - 1) hR
  have hB := cleanReplay_take_prefixPos E g0 ms i hR
  rw [htk] at hA
  rw [htk1] at hB
  have hsucc : ms.take (k + 1) = ms.take k ++ [ms.getD k ""] := by
    rw [List.take_succ, List.getElem?_eq_getElem hkl]
    simp [List.getD_eq_getElem?_getD, List.getElem?_eq_getElem hkl]
  rw [hsucc, cleanReplay_append, hA] at hB
  simp only [Option.some_bind] at hB
  exact cleanReplay_singleton E _ _ _ hB

/-! ### Navigation invariant preservation -/

theorem navInv_goToStart_core (E : Engine Pos) (g0 : Pos) (F : String) (ms : List String)
    (hM : E.init F = some g0) (hF : E.fen g0 = F)
    (s : PuzzleState Pos) (hOF : s.originalFen = F) (hPM : s.puzzleMoves = ms) :
    NavInv E g0 F ms (goToStart E s) := by
  have h0 : (0 : Int) ≤ (ms.length : Int) := Int.ofNat_nonneg _
  simp only [goToStart, hOF, hM, NavInv, prefixPos_neg_one, hF, hPM, true_and, and_true]
  omega

theorem navInv_goToStart (E : Engine Pos) (g0 : Pos) (F : String) (ms : List String)
    (hM : E.init F = some g0) (hF : E.fen g0 = F)
    (s : PuzzleState Pos) (hInv : NavInv E g0 F ms s) :
    NavInv E g0 F ms (goToStart E s) :=
  navInv_goToStart_core E g0 F ms hM hF s hInv.1 hInv.2.1

theorem navInv_previousMove (E : Engine Pos) (g0 : Pos) (F : String) (ms : List String)
    (hM : E.init F = some g0) (hF : E.fen g0 = F)
    (hR : (cleanReplay E g0 ms).isSome = true)
    (s : PuzzleState Pos) (hInv : NavInv E g0 F ms s) :
    NavInv E g0 F ms (previousMove E s) := by
  obtain ⟨hOF, hPM, hlb, hub, hg, hb⟩ := hInv
  by_cases hpos : -1 < s.currentMoveIndex
  · by_cases hdec : s.currentMoveIndex - 1 = -1
    · simp only [previousMove, if_pos hpos, if_pos hdec]
      exact navInv_goToStart_core E g0 F ms hM hF _ hOF hPM
    · have hclean := cleanReplay_take_prefixPos E g0 ms (s.currentMoveIndex - 1) hR
      have hrep := replayFrom_of_cleanReplay E g0 _ _ hclean
      simp only [previousMove, if_pos hpos, if_neg hdec, hOF, hM, hPM, hrep, NavInv,
        true_and, and_true]
      omega
  · have hid : previousMove E s = s := by simp only [previousMove, if_neg hpos]
    rw [hid]
    exact ⟨hOF, hPM, hlb, hub, hg, hb⟩

theorem navInv_nextMove (E : Engine Pos) (g0 : Pos) (F : String) (ms : List String)
    (hR : (cleanReplay E g0 ms).isSome = true)
    (s : PuzzleState Pos) (hInv : NavInv E g0 F ms s) :
    NavInv E g0 F ms (nextMove E s) := by
  obtain ⟨hOF, hPM, hlb, hub, hg, hb⟩ := hInv
  by_cases hlt : s.currentMoveIndex < (ms.length : Int) - 1
  · have hstep := moveSloppy_prefixPos_step E g0 ms (s.currentMoveIndex + 1)
      (by omega) (by omega) hR
    rw [show s.currentMoveIndex + 1 - 1 = s.currentMoveIndex by omega] at hstep
    simp only [nextMove, hPM, if_pos hlt, hg, hstep, NavInv, hOF, true_and, and_true]
    omega
  · have hlt2 : ¬ (s.currentMoveIndex < (s.puzzleMoves.length : Int) - 1) := by
      rw [hPM]; exact hlt
    have hid : nextMove E s = s := by simp only [nextMove, if_neg hlt2]
    rw [hid]
    exact ⟨hOF, hPM, hlb, hub, hg, hb⟩

theorem navInv_goToEnd (E : Engine Pos) (g0 : Pos) (F : String) (ms : List String)
    (hM : E.init F = some g0) (hF : E.fen g0 = F)
    (hR : (cleanReplay E g0 ms).isSome = true)
    (s : PuzzleState Pos) (hInv : NavInv E g0 F ms s) :
    NavInv E g0 F ms (goToEnd E s) := by
  obtain ⟨hOF, hPM, hlb, hub, hg, hb⟩ := hInv
  have h0 : (0 : Int) ≤ (ms.length : Int) := Int.ofNat_nonneg _
  have hclean := cleanReplay_take_prefixPos E g0 ms ((ms.length : Int) - 1) hR
  have hrep := replayFrom_of_cleanReplay E g0 _ _ hclean
  simp only [goToEnd, hOF, hM, hPM, hrep, NavInv, true_and, and_true]
  omega

theorem navInv_applyOp (E : Engine Pos) (g0 : Pos) (F : String) (ms : List String)
    (hM : E.init F = some g0) (hF : E.fen g0 = F)
    (hR : (cleanReplay E g0 ms).isSome = true)
    (s : PuzzleState Pos) (hInv : NavInv E g0 F ms s)
    (o : PuzzleOp) (ho : o.isNav = true) :
    NavInv E g0 F ms (applyOp E s o) := by
  cases o with
  | start => exact navInv_goToStart E g0 F ms hM hF s hInv
  | prev => exact navInv_previousMove E g0 F ms hM hF hR s hInv
  | next => exact navInv_nextMove E g0 F ms hR s hInv
  | last => exact navInv_goToEnd E g0 F ms hM hF hR s hInv
  | drag src tgt => simp [PuzzleOp.isNav] at ho

theorem navInv_applyOps (E : Engine Pos) (g0 : Pos) (F : String) (ms : List String)
    (hM : E.init F = some g0) (hF : E.fen g0 = F)
    (hR : (cleanReplay E g0 ms).isSome = true)
    (ops : List PuzzleOp) (hops : ∀ o ∈ ops, o.isNav = true)
    (s : PuzzleState Pos) (hInv : NavInv E g0 F ms s) :
    NavInv E g0 F ms (applyOps E s ops) := by
  induction ops generalizing s with
  | nil => exact hInv
  | cons o rest ih =>
    have hstep := navInv_applyOp E g0 F ms hM hF hR s hInv o (hops o (by simp))
    exact ih (fun o2 h2 => hops o2 (by simp [h2])) _ hstep

/-! ### Loading and setup -/

theorem loadPuzzle_eq (E : Engine Pos) (F movesStr : String) (g0 : Pos)
    (hM : E.init F = some g0) :
    loadPuzzle E F movesStr = some ⟨g0, -1, splitSpaces movesStr, F, F⟩ := by
  simp only [loadPuzzle, hM]

theorem navInv_loaded (E : Engine Pos) (g0 : Pos) (F movesStr : String)
    (hF : E.fen g0 = F) :
    NavInv E g0 F (splitSpaces movesStr) ⟨g0, -1, splitSpaces movesStr, F, F⟩ := by
  have h0 : (0 : Int) ≤ ((splitSpaces movesStr).length : Int) := Int.ofNat_nonneg _
  simp only [NavInv, prefixPos_neg_one, hF, true_and, and_true]
  omega

theorem navInv_applySetupMove (E : Engine Pos) (g0 : Pos) (F : String) (ms : List String)
    (hR : (cleanReplay E g0 ms).isSome = true)
    (s : PuzzleState Pos) (hInv : NavInv E g0 F ms s)
    (hc : s.currentMoveIndex = -1) :
    NavInv E g0 F ms (applySetupMove E s) := by
  obtain ⟨hOF, hPM, hlb, hub, hg, hb⟩ := hInv
  by_cases hguard : 0 < s.puzzleMoves.length ∧ s.puzzleMoves.getD 0 "" ≠ ""
  · have hguard2 : 0 < ms.length ∧ ms.getD 0 "" ≠ "" := by rw [← hPM]; exact hguard
    have hlen : 0 < ms.length := hguard2.1
    have hstep := moveSloppy_prefixPos_step E g0 ms 0 (by omega) (by omega) hR
    rw [show (0 : Int) - 1 = -1 by decide] at hstep
    rw [prefixPos_neg_one, Int.toNat_zero] at hstep
    have hgame : s.game = g0 := by rw [hg, hc, prefixPos_neg_one]
    simp only [applySetupMove, hPM, if_pos hguard2, hgame, hstep, NavInv, true_and, and_true,
      hOF]
    omega
  · simp only [applySetupMove, if_neg hguard]
    exact ⟨hOF, hPM, hlb, hub, hg, hb⟩

/-! ### Iterated nextMove -/

theorem nextMove_currentMoveIndex_of_lt (E : Engine Pos) (s : PuzzleState Pos)
    (h : s.currentMoveIndex < (s.puzzleMoves.length : Int) - 1) :
    (nextMove E s).currentMoveIndex = s.currentMoveIndex + 1 := by
  simp only [nextMove, if_pos h]
  cases hmv : E.moveSloppy s.game (s.puzzleMoves.getD (s.currentMoveIndex + 1).toNat "") <;>
    simp [hmv]

theorem nextMove_iter (E : Engine Pos) (g0 : Pos) (F : String) (ms : List String)
    (hR : (cleanReplay E g0 ms).isSome = true)
    (n : Nat) (s : PuzzleState Pos) (hInv : NavInv E g0 F ms s)
    (hb : s.currentMoveIndex + n ≤ (ms.length : Int) - 1) :
    NavInv E g0 F ms (applyOps E s (List.replicate n PuzzleOp.next)) ∧
    (applyOps E s (List.replicate n PuzzleOp.next)).currentMoveIndex =
      s.currentMoveIndex + n := by
  induction n generalizing s with
  | zero =>
    refine ⟨hInv, ?_⟩
    simp [applyOps]
  | succ k ih =>
    have hlt : s.currentMoveIndex < (s.puzzleMoves.length : Int) - 1 := by
      rw [hInv.2.1]
      omega
    have hInv2 := navInv_nextMove E g0 F ms hR s hInv
    have hcur := nextMove_currentMoveIndex_of_lt E s hlt
    have hb2 : (nextMove E s).currentMoveIndex + k ≤ (ms.length : Int) - 1 := by
      rw [hcur]
      push_cast at hb ⊢
      omega
    have hrest := ih (nextMove E s) hInv2 hb2
    rw [List.replicate_succ]
    have hfold : applyOps E s (PuzzleOp.next :: List.replicate k PuzzleOp.next) =
        applyOps E (nextMove E s) (List.replicate k PuzzleOp.next) := rfl
    rw [hfold]
    refine ⟨hrest.1, ?_⟩
    rw [hrest.2, hcur]
    push_cast
    omega

/-! ### Frame facts about goToStart and goToEnd -/

theorem goToStart_originalFen (E : Engine Pos) (s : PuzzleState Pos) :
    (goToStart E s).originalFen = s.originalFen := by
  unfold goToStart
  split <;> rfl

theorem goToEnd_originalFen (E : Engine Pos) (s : PuzzleState Pos) :
    (goToEnd E s).originalFen = s.originalFen := by
  unfold goToEnd
  dsimp only
  split
  · rfl
  · split <;> rfl

theorem goToStart_boardPos (E : Engine Pos) (s : PuzzleState Pos) (g0 : Pos)
    (h : E.init s.originalFen = some g0) :
    (goToStart E s).boardPos = s.originalFen := by
  simp only [goToStart, h]

/-! ### Claims -/

/-- C3: calculateMaterial applied to the standard chess starting position
returns 39 material points for white and 39 for black (8 pawns, 2 knights,
2 bishops, 2 rooks, 1 queen, king worth 0, per side). -/
theorem claimC3_standard_position_material :
    calculateMaterial "rnbqkbnr/pppppppp/8/8/8/8/PPPPPPPP/RNBQKBNR w KQkq - 0 1" =
      (39, 39) := by
  decide

/-- C7: invoking previousMove while the cursor is -1 changes nothing — the
cursor, the rules object and the displayed position are identical before
and after the call. -/
theorem claimC7_previousMove_noop (E : Engine Pos) (s : PuzzleState Pos)
    (h : s.currentMoveIndex = -1) : previousMove E s = s := by
  have hneg : ¬ (-1 < s.currentMoveIndex) := by omega
  simp only [previousMove, if_neg hneg]

theorem claimC7_witness :
    previousMove (histEngine 'w' false)
        ⟨["f0"], -1, ["m0", "m1"], "f0", "f0"⟩ =
      ⟨["f0"], -1, ["m0", "m1"], "f0", "f0"⟩ :=
  claimC7_previousMove_noop (histEngine 'w' false)
    ⟨["f0"], -1, ["m0", "m1"], "f0", "f0"⟩ rfl

/-- C8: invoking nextMove while the cursor is length - 1 changes nothing —
the cursor, the rules object and the displayed position are identical
before and after the call. -/
theorem claimC8_nextMove_noop (E : Engine Pos) (s : PuzzleState Pos)
    (h : s.currentMoveIndex = (s.puzzleMoves.length : Int) - 1) :
    nextMove E s = s := by
  have hneg : ¬ (s.currentMoveIndex < (s.puzzleMoves.length : Int) - 1) := by omega
  simp only [nextMove, if_neg hneg]

theorem claimC8_witness :
    nextMove (histEngine 'w' false)
        ⟨["m1", "m0", "f0"], 1, ["m0", "m1"], "f0", "f0 m0 m1"⟩ =
      ⟨["m1", "m0", "f0"], 1, ["m0", "m1"], "f0", "f0 m0 m1"⟩ :=
  claimC8_nextMove_noop (histEngine 'w' false)
    ⟨["m1", "m0", "f0"], 1, ["m0", "m1"], "f0", "f0 m0 m1"⟩ (by decide)

/-- C9: the displayed position after goToStart; goToEnd; goToStart equals
the displayed position after a single goToStart (both are the original
starting FEN). -/
theorem claimC9_start_end_start_idempotent (E : Engine Pos) (s : PuzzleState Pos)
    (g0 : Pos) (h : E.init s.originalFen = some g0) :
    (goToStart E (goToEnd E (goToStart E s))).boardPos = (goToStart E s).boardPos := by
  have h1 : (goToStart E s).originalFen = s.originalFen := goToStart_originalFen E s
  have h2 : (goToEnd E (goToStart E s)).originalFen = s.originalFen := by
    rw [goToEnd_originalFen, h1]
  have hb1 : (goToStart E s).boardPos = s.originalFen := goToStart_boardPos E s g0 h
  have hb2 : (goToStart E (goToEnd E (goToStart E s))).boardPos =
      (goToEnd E (goToStart E s)).originalFen :=
    goToStart_boardPos E _ g0 (by rw [h2]; exact h)
  rw [hb2, h2, hb1]

theorem claimC9_witness :
    (goToStart (histEngine 'w' false)
        (goToEnd (histEngine 'w' false)
          (goToStart (histEngine 'w' false)
            ⟨["m0", "f0"], 0, ["m0", "m1"], "f0", "f0 m0"⟩))).boardPos =
      (goToStart (histEngine 'w' false)
        ⟨["m0", "f0"], 0, ["m0", "m1"], "f0", "f0 m0"⟩).boardPos :=
  claimC9_start_end_start_idempotent (histEngine 'w' false)
    ⟨["m0", "f0"], 0, ["m0", "m1"], "f0", "f0 m0"⟩ ["f0"] rfl

/-- C4: at puzzle load, black to move first yields orientation white (white
pieces at the bottom), white to move first yields orientation black, and
therefore the side at the bottom is never the side making the immediate
next move. -/
theorem claimC4_orientation (E : Engine Pos) (g : Pos) :
    (E.turn g = 'b' → loadOrientation E g = "white") ∧
    (E.turn g = 'w' → loadOrientation E g = "black") ∧
    (E.turn g = 'w' ∨ E.turn g = 'b' →
      loadOrientation E g ≠ sideName (E.turn g)) := by
  refine ⟨?_, ?_, ?_⟩
  · intro h
    simp [loadOrientation, h]
  · intro h
    simp [loadOrientation, h]
  · rintro (h | h) <;> simp [loadOrientation, sideName, h]

theorem claimC4_witness :
    loadOrientation (histEngine 'b' false) ["f0"] = "white" ∧
    loadOrientation (histEngine 'w' false) ["f0"] = "black" ∧
    loadOrientation (histEngine 'w' false) ["f0"] ≠
      sideName ((histEngine 'w' false).turn ["f0"]) :=
  ⟨(claimC4_orientation (histEngine 'b' false) ["f0"]).1 rfl,
   (claimC4_orientation (histEngine 'w' false) ["f0"]).2.1 rfl,
   (claimC4_orientation (histEngine 'w' false) ["f0"]).2.2 (Or.inl rfl)⟩

/-- C6: one invocation of the random-move driver on a game that is not over
applies exactly the move at index floor(random() * length) of the
legal-move list, pushes the new position, and schedules exactly one further
invocation; when the game is over at invocation start, nothing is applied
and nothing is scheduled. -/
theorem claimC6_random_move_driver (E : Engine Pos) (r : ℚ) (s : RGState Pos) :
    (E.isGameOver s.game = true → makeRandomMove E r s = { s with scheduled := 0 }) ∧
    (E.isGameOver s.game = false →
      ∀ g2, E.moveSan s.game
          ((E.moves s.game).getD
            (⌊r * ((E.moves s.game).length : ℚ)⌋).toNat "") = .ok g2 →
        makeRandomMove E r s = ⟨g2, E.fen g2, 1⟩) := by
  constructor
  · intro h
    simp only [makeRandomMove, h, if_true]
  · intro h g2 hmv
    simp only [makeRandomMove, h, Bool.false_eq_true, if_false, hmv]

theorem claimC6_witness :
    makeRandomMove (histEngine 'w' true) 0 ⟨["f0"], "f0", 7⟩ = ⟨["f0"], "f0", 0⟩ ∧
    makeRandomMove (histEngine 'w' false) 0 ⟨["f0"], "f0", 7⟩ =
      ⟨["e4", "f0"], (histEngine 'w' false).fen ["e4", "f0"], 1⟩ :=
  ⟨(claimC6_random_move_driver (histEngine 'w' true) 0 ⟨["f0"], "f0", 7⟩).1 rfl,
   (claimC6_random_move_driver (histEngine 'w' false) 0 ⟨["f0"], "f0", 7⟩).2 rfl
     ["e4", "f0"] (by norm_num [histEngine])⟩

theorem playLoop_filter (E : Engine Pos) (g : Pos) (ms : List String) :
    playLoop E g ms = playLoop E g (ms.filter fun m => decide (4 ≤ m.length)) := by
  induction ms generalizing g with
  | nil => rfl
  | cons m rest ih =>
    rw [List.filter_cons]
    by_cases hlen : 4 ≤ m.length
    · have hne : m ≠ "" := by
        intro he
        rw [he] at hlen
        exact absurd hlen (by decide)
      rw [if_pos (by simpa using hlen)]
      simp only [playLoop, if_pos (And.intro hne hlen)]
      cases hmv : E.moveSloppy g m with
      | ok g2 => exact ih g2
      | nullRet => exact ih g
      | thrown => rfl
    · rw [if_neg (by simpa using hlen)]
      have hcond : ¬ (m ≠ "" ∧ 4 ≤ m.length) := fun hc => hlen hc.2
      simp only [playLoop, if_neg hcond]
      exact ih g

/-- C10: playMovesAndCalculateMaterial silently skips every token shorter
than 4 characters, stops replaying at the first move application that
throws and returns the material of the position reached so far, and
returns zero material for both sides when construction from the starting
FEN itself fails; it never propagates an exception. -/
theorem claimC10_material_replay_errors (E : Engine Pos) :
    (∀ f mstr, E.init f = none →
      playMovesAndCalculateMaterial E f mstr = (0, 0)) ∧
    (∀ g ms, playLoop E g ms =
      playLoop E g (ms.filter fun m => decide (4 ≤ m.length))) ∧
    (∀ g m rest, 4 ≤ m.length → E.moveSloppy g m = .thrown →
      playLoop E g (m :: rest) = g) ∧
    (∀ f mstr g, E.init f = some g →
      playMovesAndCalculateMaterial E f mstr =
        calculateMaterialE E (E.fen (playLoop E g (splitSpaces mstr)))) := by
  refine ⟨?_, playLoop_filter E, ?_, ?_⟩
  · intro f mstr h
    simp [playMovesAndCalculateMaterial, h]
  · intro g m rest hlen hmv
    have hne : m ≠ "" := by
      intro he
      rw [he] at hlen
      exact absurd hlen (by decide)
    simp only [playLoop, if_pos (And.intro hne hlen), hmv]
  · intro f mstr g h
    simp [playMovesAndCalculateMaterial, h]

theorem claimC10_witness :
    flakyEngine.init "bad" = none ∧
    playMovesAndCalculateMaterial flakyEngine "bad" "e2e4" = (0, 0) ∧
    playLoop flakyEngine ["p0"] ["e4", "e2e4"] =
      playLoop flakyEngine ["p0"] (["e4", "e2e4"].filter fun m => decide (4 ≤ m.length)) ∧
    (4 ≤ "boom".length ∧ flakyEngine.moveSloppy ["p0"] "boom" = .thrown ∧
      playLoop flakyEngine ["p0"] ["boom", "e2e4"] = ["p0"]) ∧
    (flakyEngine.init "p0" = some ["p0"] ∧
      playMovesAndCalculateMaterial flakyEngine "p0" "e2e4" =
        calculateMaterialE flakyEngine
          (flakyEngine.fen (playLoop flakyEngine ["p0"] (splitSpaces "e2e4")))) :=
  ⟨by decide,
   (claimC10_material_replay_errors flakyEngine).1 "bad" "e2e4" (by decide),
   (claimC10_material_replay_errors flakyEngine).2.1 ["p0"] ["e4", "e2e4"],
   ⟨by decide, by decide,
    (claimC10_material_replay_errors flakyEngine).2.2.1 ["p0"] "boom" ["e2e4"]
      (by decide) (by decide)⟩,
   ⟨by decide,
    (claimC10_material_replay_errors flakyEngine).2.2.2 "p0" "e2e4" ["p0"] (by decide)⟩⟩

/-- C5 is refuted as stated: with an engine in which the setup move fails by
returning the failure sentinel null rather than throwing, the cursor still
reaches 0 even though the move was not applied (the rules object is
unchanged), contradicting "the cursor reaches 0 only when the setup move is
applied successfully". -/
theorem claimC5_counterexample :
    loadPuzzle nullMoveEngine "f0" "zzzz" =
      some ⟨["f0"], -1, ["zzzz"], "f0", "f0"⟩ ∧
    nullMoveEngine.moveSloppy ["f0"] "zzzz" = .nullRet ∧
    applySetupMove nullMoveEngine ⟨["f0"], -1, ["zzzz"], "f0", "f0"⟩ =
      ⟨["f0"], 0, ["zzzz"], "f0", "f0"⟩ := by
  refine ⟨by decide, by decide, by decide⟩

/-- C5 (amended): if applying the setup move throws, the cursor is -1
afterwards and nothing else changed (no crash); the cursor reaches 0
exactly when the move call returns without throwing — including when it
returns the failure sentinel without applying the move. -/
theorem claimC5_setup_failure (E : Engine Pos) (s : PuzzleState Pos)
    (hne : 0 < s.puzzleMoves.length ∧ s.puzzleMoves.getD 0 "" ≠ "") :
    (E.moveSloppy s.game (s.puzzleMoves.getD 0 "") = .thrown →
      applySetupMove E s = { s with currentMoveIndex := -1 }) ∧
    (E.moveSloppy s.game (s.puzzleMoves.getD 0 "") ≠ .thrown →
      (applySetupMove E s).currentMoveIndex = 0) := by
  constructor
  · intro h
    simp only [applySetupMove, if_pos hne, h]
  · intro h
    simp only [applySetupMove, if_pos hne]
    cases hmv : E.moveSloppy s.game (s.puzzleMoves.getD 0 "") with
    | ok g2 => rfl
    | nullRet => rfl
    | thrown => exact absurd hmv h

theorem claimC5_witness :
    applySetupMove flakyEngine ⟨["f0"], -1, ["boom"], "f0", "f0"⟩ =
      ⟨["f0"], -1, ["boom"], "f0", "f0"⟩ ∧
    (applySetupMove (histEngine 'w' false)
        ⟨["f0"], -1, ["m0"], "f0", "f0"⟩).currentMoveIndex = 0 :=
  ⟨(claimC5_setup_failure flakyEngine ⟨["f0"], -1, ["boom"], "f0", "f0"⟩
      (by decide)).1 (by decide),
   (claimC5_setup_failure (histEngine 'w' false) ⟨["f0"], -1, ["m0"], "f0", "f0"⟩
      (by decide)).2 (by decide)⟩

/-- C1 is refuted as stated: drag-drop of a legal move mutates the rules
object while the display snaps back, so a subsequent nextMove applies the
recorded move on top of the drag move and pushes a position that is not
the replay of solutionMoves[0..currentMoveIndex] from the starting
position.  Here the loaded puzzle has starting FEN "f0" and moves
"m0 m1"; after the setup move, the drag from "a" to "b" and one nextMove,
the cursor is 1 but the pushed position contains the drag move. -/
theorem claimC1_counterexample :
    loadPuzzle (histEngine 'w' false) "f0" "m0 m1" =
      some ⟨["f0"], -1, ["m0", "m1"], "f0", "f0"⟩ ∧
    (applyOps (histEngine 'w' false)
        (applySetupMove (histEngine 'w' false) ⟨["f0"], -1, ["m0", "m1"], "f0", "f0"⟩)
        [PuzzleOp.drag "a" "b", PuzzleOp.next]).currentMoveIndex = 1 ∧
    (applyOps (histEngine 'w' false)
        (applySetupMove (histEngine 'w' false) ⟨["f0"], -1, ["m0", "m1"], "f0", "f0"⟩)
        [PuzzleOp.drag "a" "b", PuzzleOp.next]).boardPos = "f0 m0 ab m1" ∧
    (histEngine 'w' false).fen
        (prefixPos (histEngine 'w' false) ["f0"] ["m0", "m1"] 1) = "f0 m0 m1" ∧
    (applyOps (histEngine 'w' false)
        (applySetupMove (histEngine 'w' false) ⟨["f0"], -1, ["m0", "m1"], "f0", "f0"⟩)
        [PuzzleOp.drag "a" "b", PuzzleOp.next]).boardPos ≠
      (histEngine 'w' false).fen
        (prefixPos (histEngine 'w' false) ["f0"] ["m0", "m1"]
          (applyOps (histEngine 'w' false)
              (applySetupMove (histEngine 'w' false)
                ⟨["f0"], -1, ["m0", "m1"], "f0", "f0"⟩)
              [PuzzleOp.drag "a" "b", PuzzleOp.next]).currentMoveIndex) := by
  refine ⟨by decide, by decide, by decide, by decide, by decide⟩

/-- C1 (amended): after a good puzzle is loaded and its setup move applied,
for every sequence of the four navigation operations (drag-drop inputs
excluded — a successful drag breaks the invariant), the position pushed to
the display is the FEN of the clean replay of
solutionMoves[0..currentMoveIndex] against the starting position, the
rules object is exactly that replay (no move applied out of order, no
index skipped), and the cursor stays in [-1, N-1]. -/
theorem claimC1_display_replay_invariant (E : Engine Pos) (F movesStr : String)
    (g0 : Pos) (hG : GoodPuzzle E F movesStr g0)
    (s0 : PuzzleState Pos) (h0 : loadPuzzle E F movesStr = some s0)
    (ops : List PuzzleOp) (hops : ∀ o ∈ ops, o.isNav = true) :
    (applyOps E (applySetupMove E s0) ops).boardPos =
      E.fen (prefixPos E g0 (splitSpaces movesStr)
        (applyOps E (applySetupMove E s0) ops).currentMoveIndex) ∧
    (applyOps E (applySetupMove E s0) ops).game =
      prefixPos E g0 (splitSpaces movesStr)
        (applyOps E (applySetupMove E s0) ops).currentMoveIndex ∧
    -1 ≤ (applyOps E (applySetupMove E s0) ops).currentMoveIndex ∧
    (applyOps E (applySetupMove E s0) ops).currentMoveIndex ≤
      ((splitSpaces movesStr).length : Int) - 1 := by
  obtain ⟨hM, hF, hR⟩ := hG
  have hs0 : s0 = ⟨g0, -1, splitSpaces movesStr, F, F⟩ := by
    rw [loadPuzzle_eq E F movesStr g0 hM] at h0
    exact (Option.some.inj h0).symm
  subst hs0
  have h1 : NavInv E g0 F (splitSpaces movesStr) ⟨g0, -1, splitSpaces movesStr, F, F⟩ :=
    navInv_loaded E g0 F movesStr hF
  have h2 := navInv_applySetupMove E g0 F (splitSpaces movesStr) hR _ h1 rfl
  have h3 := navInv_applyOps E g0 F (splitSpaces movesStr) hM hF hR ops hops _ h2
  obtain ⟨_, _, hlb, hub, hg, hb⟩ := h3
  exact ⟨hb, hg, hlb, hub⟩

/-- The state reached in the C1 witness scenario: load the puzzle with FEN
"f0" and moves "m0 m1", apply the setup move, then goToEnd, goToStart and
nextMove. -/
def c1wState : PuzzleState (List String) :=
  applyOps (histEngine 'w' false)
    (applySetupMove (histEngine 'w' false) ⟨["f0"], -1, ["m0", "m1"], "f0", "f0"⟩)
    [PuzzleOp.last, PuzzleOp.start, PuzzleOp.next]

theorem claimC1_witness :
    GoodPuzzle (histEngine 'w' false) "f0" "m0 m1" ["f0"] ∧
    c1wState.boardPos =
      (histEngine 'w' false).fen
        (prefixPos (histEngine 'w' false) ["f0"] (splitSpaces "m0 m1")
          c1wState.currentMoveIndex) ∧
    c1wState.game =
      prefixPos (histEngine 'w' false) ["f0"] (splitSpaces "m0 m1")
        c1wState.currentMoveIndex ∧
    -1 ≤ c1wState.currentMoveIndex ∧
    c1wState.currentMoveIndex ≤ (((splitSpaces "m0 m1").length : Int) - 1) :=
  ⟨⟨rfl, by decide, by decide⟩,
   claimC1_display_replay_invariant (histEngine 'w' false) "f0" "m0 m1" ["f0"]
     ⟨rfl, by decide, by decide⟩ ⟨["f0"], -1, ["m0", "m1"], "f0", "f0"⟩ (by decide)
     [PuzzleOp.last, PuzzleOp.start, PuzzleOp.next] (by decide)⟩

/-- C2: for every cursor value c in [0, N-1], the position obtained by
reinitializing from the original starting position and replaying moves
0..c (the replayFrom computation performed by previousMove and goToEnd)
equals the position obtained by starting at cursor -1 and performing c+1
sequential nextMove calls, and the same holds for the pushed FEN. -/
theorem claimC2_incremental_matches_replay (E : Engine Pos) (F movesStr : String)
    (g0 : Pos) (hG : GoodPuzzle E F movesStr g0) (c : Nat)
    (hc : c < (splitSpaces movesStr).length) :
    (applyOps E ⟨g0, -1, splitSpaces movesStr, F, F⟩
        (List.replicate (c + 1) PuzzleOp.next)).game =
      (replayFrom E g0 ((splitSpaces movesStr).take (c + 1))).1 ∧
    (applyOps E ⟨g0, -1, splitSpaces movesStr, F, F⟩
        (List.replicate (c + 1) PuzzleOp.next)).boardPos =
      E.fen ((replayFrom E g0 ((splitSpaces movesStr).take (c + 1))).1) ∧
    (applyOps E ⟨g0, -1, splitSpaces movesStr, F, F⟩
        (List.replicate (c + 1) PuzzleOp.next)).currentMoveIndex = (c : Int) := by
  obtain ⟨hM, hF, hR⟩ := hG
  have h1 : NavInv E g0 F (splitSpaces movesStr) ⟨g0, -1, splitSpaces movesStr, F, F⟩ :=
    navInv_loaded E g0 F movesStr hF
  have hbound : (⟨g0, -1, splitSpaces movesStr, F, F⟩ :
      PuzzleState Pos).currentMoveIndex + ((c + 1 : Nat) : Int) ≤
        ((splitSpaces movesStr).length : Int) - 1 := by
    show (-1 : Int) + ((c + 1 : Nat) : Int) ≤ ((splitSpaces movesStr).length : Int) - 1
    push_cast
    omega
  have hiter := nextMove_iter E g0 F (splitSpaces movesStr) hR (c + 1) _ h1 hbound
  obtain ⟨⟨_, _, _, _, hg, hb⟩, hcur⟩ := hiter
  have hcur2 : (applyOps E ⟨g0, -1, splitSpaces movesStr, F, F⟩
      (List.replicate (c + 1) PuzzleOp.next)).currentMoveIndex = (c : Int) := by
    rw [hcur]
    show (-1 : Int) + ((c + 1 : Nat) : Int) = (c : Int)
    push_cast
    omega
  have hclean := cleanReplay_take_prefixPos E g0 (splitSpaces movesStr) (c : Int) hR
  have hrep := replayFrom_of_cleanReplay E g0 _ _ hclean
  have htn : ((c : Int) + 1).toNat = c + 1 := by omega
  rw [htn] at hrep
  rw [hcur2] at hg hb
  refine ⟨?_, ?_, hcur2⟩
  · rw [hg, hrep]
  · rw [hb, hrep]

/-- The state reached in the C2 witness scenario: two nextMove calls from
cursor -1 on the puzzle with FEN "f0" and moves "m0 m1". -/
def c2wState : PuzzleState (List String) :=
  applyOps (histEngine 'w' false) ⟨["f0"], -1, ["m0", "m1"], "f0", "f0"⟩
    (List.replicate 2 PuzzleOp.next)

theorem claimC2_witness :
    GoodPuzzle (histEngine 'w' false) "f0" "m0 m1" ["f0"] ∧
    1 < (splitSpaces "m0 m1").length ∧
    c2wState.game =
      (replayFrom (histEngine 'w' false) ["f0"] ((splitSpaces "m0 m1").take 2)).1 ∧
    c2wState.boardPos =
      (histEngine 'w' false).fen
        ((replayFrom (histEngine 'w' false) ["f0"] ((splitSpaces "m0 m1").take 2)).1) ∧
    c2wState.currentMoveIndex = 1 :=
  ⟨⟨rfl, by decide, by decide⟩, by decide,
   (claimC2_incremental_matches_replay (histEngine 'w' false) "f0" "m0 m1" ["f0"]
      ⟨rfl, by decide, by decide⟩ 1 (by decide)).1,
   (claimC2_incremental_matches_replay (histEngine 'w' false) "f0" "m0 m1" ["f0"]
      ⟨rfl, by decide, by decide⟩ 1 (by decide)).2.1,
   (claimC2_incremental_matches_replay (histEngine 'w' false) "f0" "m0 m1" ["f0"]
      ⟨rfl, by decide, by decide⟩ 1 (by decide)).2.2⟩

end ChessTrainer
